import Mathlib

/-!
# Verification of the plate-text normalization / ensemble-decision engine

Shallow embedding of `app/ocr_enhancement.py`.

Conventions:
* Python strings are embedded as `List Char`; the text operations used by the
  source (`upper`, `strip`+`re.sub` character filtering, `replace`, slicing,
  anchored regular-expression matching against fixed-shape patterns) are
  translated to explicit list functions.
* The internal pattern-analysis scores are float constants and products of
  float constants in the source; every value that can arise is an exact
  decimal with at most six fractional digits, so scores are embedded as exact
  fixed-point integers in units of 10⁻⁶ (`0.5` ↦ `500000`, the per-layout
  likelihood `0.7` ↦ `700000`, …) with exact fixed-point multiplication.
  All comparisons performed by the source on these values coincide with the
  comparisons of this exact model.
* OCR confidences, which the claims quantify over, are embedded as `ℚ`.
* `None` text inputs are embedded as `Option (List Char)` at the interfaces
  that accept them (`if not text` in Python treats `None` and `""` alike).
-/

namespace PlakaOCR

/-- Internal analysis score: fixed-point integer in units of 10⁻⁶. -/
abbrev Score := Int

/-- Fixed-point multiplication in units of 10⁻⁶.  Exact (no rounding) on every
pair of values the engine multiplies. -/
def smul (a b : Score) : Score := a * b / 1000000

/-- The regex character class `[A-Z]`. -/
def isUpperC (c : Char) : Bool := 'A' ≤ c && c ≤ 'Z'

/-- The regex character class `[0-9]`. -/
def isDigitC (c : Char) : Bool := '0' ≤ c && c ≤ '9'

/-- `text.upper()` followed by `re.sub(r"[^A-Z0-9]", "", ...)` (the
`.strip()` in between only removes whitespace, which the filter removes
anyway). -/
def strip01 (t : List Char) : List Char :=
  (t.map Char.toUpper).filter (fun c => isUpperC c || isDigitC c)

/-- A sequence of Python `str.replace(old, new)` calls on single characters,
applied in the iteration order of the corresponding dict. -/
def applySubs (subs : List (Char × Char)) (t : List Char) : List Char :=
  subs.foldl (fun s p => s.map (fun c => if c = p.1 then p.2 else c)) t

/-- `LETTER_TO_NUMBER = {'B':'8','D':'0','G':'6','S':'5','O':'0','I':'1','Z':'2'}`. -/
def LETTER_TO_NUMBER : List (Char × Char) :=
  [('B', '8'), ('D', '0'), ('G', '6'), ('S', '5'), ('O', '0'), ('I', '1'), ('Z', '2')]

/-- `NUMBER_TO_LETTER = {'8':'B','0':'O','6':'G','5':'S','1':'I','2':'Z'}`. -/
def NUMBER_TO_LETTER : List (Char × Char) :=
  [('8', 'B'), ('0', 'O'), ('6', 'G'), ('5', 'S'), ('1', 'I'), ('2', 'Z')]

/-- `VALID_PROVINCE_CODES`: the 81 two-digit province codes `"01"`–`"81"`. -/
def VALID_PROVINCE_CODES : List String :=
  ["01", "02", "03", "04", "05", "06", "07", "08", "09", "10",
   "11", "12", "13", "14", "15", "16", "17", "18", "19", "20",
   "21", "22", "23", "24", "25", "26", "27", "28", "29", "30",
   "31", "32", "33", "34", "35", "36", "37", "38", "39", "40",
   "41", "42", "43", "44", "45", "46", "47", "48", "49", "50",
   "51", "52", "53", "54", "55", "56", "57", "58", "59", "60",
   "61", "62", "63", "64", "65", "66", "67", "68", "69", "70",
   "71", "72", "73", "74", "75", "76", "77", "78", "79", "80", "81"]

/-- `province in VALID_PROVINCE_CODES`. -/
def validProvince (p : List Char) : Bool :=
  VALID_PROVINCE_CODES.any (fun s => s.toList == p)

/-- Anchored match of `^([0-9]{2})([A-Z]{L})([0-9]{N})$`, returning the three
groups on success. -/
def matchStd (L N : Nat) (t : List Char) : Option (List Char × List Char × List Char) :=
  if t.length = 2 + L + N ∧ (t.take 2).all isDigitC = true ∧
      ((t.drop 2).take L).all isUpperC = true ∧
      ((t.drop 2).drop L).all isDigitC = true then
    some (t.take 2, (t.drop 2).take L, (t.drop 2).drop L)
  else none

/-- The 12 `standard_patterns`: (letters, numbers, pattern confidence). -/
def standardPatterns : List (Nat × Nat × Score) :=
  [(1, 1, 700000), (1, 2, 800000), (1, 3, 900000), (1, 4, 900000),
   (2, 1, 800000), (2, 2, 900000), (2, 3, 900000), (2, 4, 800000),
   (3, 1, 900000), (3, 2, 800000), (3, 3, 700000), (3, 4, 600000)]

/-- A structural hypothesis produced by `analyze_plate_pattern` (the dicts
appended to `results`).  `letters`/`numbers` are only meaningful for
`type = "standard"` hypotheses, matching the keys present in the source. -/
structure Hyp where
  type : String
  groups : List (List Char)
  letters : Nat
  numbers : Nat
  confidence : Score
  corrected_text : Option (List Char)
deriving DecidableEq

/-- The pattern-likelihood bonus of the direct-match scoring. -/
def layoutBonus (L N : Nat) : Score :=
  if L = 2 ∧ 2 ≤ N ∧ N ≤ 3 then 200000
  else if L = 3 ∧ N = 1 then 150000
  else if L = 1 ∧ N = 4 then 150000
  else 0

/-- `+0.3` when the matched province group is a valid province code. -/
def provinceBonus (p : List Char) : Score :=
  if validProvince p then 300000 else 0

/-- First loop of `analyze_plate_pattern`: direct matches of the text against
the 12 standard patterns, in pattern order. -/
def directHyps (text : List Char) : List Hyp :=
  standardPatterns.filterMap (fun pat =>
    match matchStd pat.1 pat.2.1 text with
    | some (province, letters, numbers) =>
        let score : Score := 500000 + provinceBonus province + layoutBonus pat.1 pat.2.1
        some { type := "standard", groups := [province, letters, numbers],
               letters := pat.1, numbers := pat.2.1,
               confidence := smul score pat.2.2, corrected_text := none }
    | none => none)

/-- A candidate corrected string from `generate_correction_variants`. -/
structure Variant where
  text : List Char
  correction_score : Score
deriving DecidableEq

/-- Python `str.isalpha()` (nonempty and all cased letters). -/
def isalphaStr (t : List Char) : Bool := !t.isEmpty && t.all Char.isAlpha

/-- Python `str.isdigit()` (nonempty and all digits). -/
def isdigitStr (t : List Char) : Bool := !t.isEmpty && t.all isDigitC

/-- `sum(1 for i, c in enumerate(a) if i < len(b) and c != b[i])`. -/
def countDiff (a b : List Char) : Nat :=
  (a.zip b).countP (fun p => p.1 != p.2)

/-- `calculate_variant_score`. -/
def calculate_variant_score (origLetters origNumbers corrLetters corrNumbers : List Char) :
    Score :=
  let s1 : Score := if isalphaStr corrLetters && !isalphaStr origLetters then 150000 else 0
  let s2 : Score := if isdigitStr corrNumbers && !isdigitStr origNumbers then 150000 else 0
  let totalChanges := countDiff origLetters corrLetters + countDiff origNumbers corrNumbers
  let s3 : Score :=
    if totalChanges ≤ 2 then 100000 else if totalChanges ≤ 4 then 50000 else -100000
  s1 + s2 + s3

/-- `generate_correction_variants`. -/
def generate_correction_variants (text : List Char) : List Variant :=
  if text.length < 5 then [] else
  let provinceCorrected := applySubs [('O', '0'), ('I', '1'), ('D', '0')] (text.take 2)
  let provinceVariants : List Variant :=
    if provinceCorrected ≠ text.take 2 then
      [{ text := provinceCorrected ++ text.drop 2, correction_score := 100000 }]
    else []
  let remaining := text.drop 2
  let boundaryVariants : List Variant :=
    (List.range' 1 (remaining.length - 1)).filterMap (fun splitPoint =>
      let potentialLetters := remaining.take splitPoint
      let potentialNumbers := remaining.drop splitPoint
      if 1 ≤ potentialLetters.length ∧ potentialLetters.length ≤ 3 ∧
          1 ≤ potentialNumbers.length ∧ potentialNumbers.length ≤ 4 then
        let corrLetters := applySubs NUMBER_TO_LETTER potentialLetters
        let corrNumbers := applySubs [('O', '0'), ('I', '1'), ('S', '5'), ('Z', '2')]
          potentialNumbers
        let correctedVariant := provinceCorrected ++ corrLetters ++ corrNumbers
        if correctedVariant ≠ text then
          some { text := correctedVariant,
                 correction_score :=
                   calculate_variant_score potentialLetters potentialNumbers
                     corrLetters corrNumbers }
        else none
      else none)
  provinceVariants ++ boundaryVariants

/-- Second loop of `analyze_plate_pattern`: each correction variant re-tested
against the 12 standard patterns (variant outer, pattern inner). -/
def variantHyps (text : List Char) : List Hyp :=
  (generate_correction_variants text).flatMap (fun v =>
    standardPatterns.filterMap (fun pat =>
      match matchStd pat.1 pat.2.1 v.text with
      | some (province, letters, numbers) =>
          let score : Score := 400000 + provinceBonus province + v.correction_score
          some { type := "standard", groups := [province, letters, numbers],
                 letters := pat.1, numbers := pat.2.1,
                 confidence := smul (smul score pat.2.2) 900000,
                 corrected_text := some v.text }
      | none => none))

/-- Greedy anchored match of `^([A-Z]{2,3})([0-9]{3,4})([A-Z]?)$` in Python
backtracking order (longer alternatives first, left group backtracks last). -/
def dipMatch (t : List Char) : Option (List Char × List Char × List Char) :=
  [(3, 4, 1), (3, 4, 0), (3, 3, 1), (3, 3, 0),
   (2, 4, 1), (2, 4, 0), (2, 3, 1), (2, 3, 0)].findSome?
    (fun c =>
      if t.length = c.1 + c.2.1 + c.2.2 ∧ (t.take c.1).all isUpperC = true ∧
          ((t.drop c.1).take c.2.1).all isDigitC = true ∧
          ((t.drop c.1).drop c.2.1).all isUpperC = true then
        some (t.take c.1, (t.drop c.1).take c.2.1, (t.drop c.1).drop c.2.1)
      else none)

/-- Greedy anchored match of `^([A-Z]{1,2})([0-9]{2,4})([A-Z]{1,2})$` in
Python backtracking order. -/
def oldMatch (t : List Char) : Option (List Char × List Char × List Char) :=
  [(2, 4, 2), (2, 4, 1), (2, 3, 2), (2, 3, 1), (2, 2, 2), (2, 2, 1),
   (1, 4, 2), (1, 4, 1), (1, 3, 2), (1, 3, 1), (1, 2, 2), (1, 2, 1)].findSome?
    (fun c =>
      if t.length = c.1 + c.2.1 + c.2.2 ∧ (t.take c.1).all isUpperC = true ∧
          ((t.drop c.1).take c.2.1).all isDigitC = true ∧
          ((t.drop c.1).drop c.2.1).all isUpperC = true then
        some (t.take c.1, (t.drop c.1).take c.2.1, (t.drop c.1).drop c.2.1)
      else none)

/-- `analyze_special_formats`. -/
def analyze_special_formats (text : List Char) : List Hyp :=
  (match dipMatch text with
   | some (l, d, tr) =>
       [{ type := "diplomatic", groups := [l, d, tr], letters := 0, numbers := 0,
          confidence := 800000, corrected_text := none }]
   | none => []) ++
  (match oldMatch text with
   | some (l1, d, l2) =>
       [{ type := "old", groups := [l1, d, l2], letters := 0, numbers := 0,
          confidence := 600000, corrected_text := none }]
   | none => [])

/-- Python `max(results, key=lambda x: x['confidence'])`: first maximal
element wins ties. -/
def maxByFirst : List Hyp → Option Hyp
  | [] => none
  | h :: t => some (t.foldl (fun best x => if best.confidence < x.confidence then x else best) h)

/-- The `{'confidence': 0.0, 'type': 'unknown'}` fallback. -/
def unknownHyp : Hyp :=
  { type := "unknown", groups := [], letters := 0, numbers := 0,
    confidence := 0, corrected_text := none }

/-- `analyze_plate_pattern`. -/
def analyze_plate_pattern (text : List Char) : Hyp :=
  let results := directHyps text ++ variantHyps text ++ analyze_special_formats text
  match maxByFirst results with
  | some best => best
  | none => unknownHyp

/-- `apply_dynamic_standard_corrections`. -/
def apply_dynamic_standard_corrections (text : List Char) (a : Hyp) : List Char :=
  match a.corrected_text with
  | some ct => ct
  | none =>
      match a.groups with
      | province :: letters :: numbers :: _ =>
          applySubs LETTER_TO_NUMBER province ++ letters ++ numbers
      | _ => text

/-- `apply_diplomatic_corrections`. -/
def apply_diplomatic_corrections (text : List Char) (a : Hyp) : List Char :=
  match a.groups with
  | letters :: numbers :: rest =>
      let fixedLetters := applySubs [('0', 'O'), ('1', 'I')] letters
      let fixedNumbers := applySubs [('O', '0'), ('I', '1'), ('S', '5')] numbers
      let result := fixedLetters ++ fixedNumbers
      match rest with
      | trailing :: _ => if trailing ≠ [] then result ++ trailing else result
      | [] => result
  | _ => text

/-- `apply_old_format_corrections`. -/
def apply_old_format_corrections (text : List Char) (a : Hyp) : List Char :=
  match a.groups with
  | letters1 :: numbers :: letters2 :: _ =>
      applySubs [('0', 'O'), ('1', 'I')] letters1 ++
        applySubs [('O', '0'), ('I', '1'), ('S', '5')] numbers ++
        applySubs [('0', 'O'), ('1', 'I')] letters2
  | _ => text

/-- `apply_corrections_based_on_analysis`. -/
def apply_corrections_based_on_analysis (text : List Char) (a : Hyp) : List Char :=
  if a.type = "standard" then apply_dynamic_standard_corrections text a
  else if a.type = "diplomatic" then apply_diplomatic_corrections text a
  else if a.type = "old" then apply_old_format_corrections text a
  else text

/-- `apply_conservative_corrections`: the `{'O':'0','I':'1'}` fallback. -/
def apply_conservative_corrections (text : List Char) : List Char :=
  applySubs [('O', '0'), ('I', '1')] text

/-- `context_aware_correction` (`0.6` threshold ↦ `600000`). -/
def context_aware_correction (text : List Char) : List Char :=
  if text.length < 5 then text else
  let cleanText := strip01 text
  let analysis := analyze_plate_pattern cleanText
  if 600000 < analysis.confidence then apply_corrections_based_on_analysis cleanText analysis
  else apply_conservative_corrections cleanText

/-- `enhanced_clean_text` on a (non-`None`) string. -/
def enhanced_clean_text (text : List Char) : List Char :=
  if text = [] then [] else
  let t := strip01 text
  let t2 := context_aware_correction t
  if t2.length < 2 ∨ 10 < t2.length then [] else t2

/-- `enhanced_clean_text` including the `None` input case (`if not text`). -/
def enhanced_clean_text_opt : Option (List Char) → List Char
  | none => []
  | some t => enhanced_clean_text t

/-- Whether the text matches one of the 12 standard layouts (without the
province-set check). -/
def matchesStandardLayout (t : List Char) : Bool :=
  standardPatterns.any (fun pat => (matchStd pat.1 pat.2.1 t).isSome)

/-- `enhanced_validation`. -/
def enhanced_validation (t : List Char) : Bool :=
  if t.length < 5 then false
  else if standardPatterns.any
      (fun pat => (matchStd pat.1 pat.2.1 t).isSome && validProvince (t.take 2)) then true
  else if (dipMatch t).isSome then true
  else if (oldMatch t).isSome then true
  else false

/-- `re.match(r'^[0-9]{2}[A-Z]{1,3}[0-9]{1,4}$', text)` in
`calculate_confidence_boost`. -/
def perfectStandard (t : List Char) : Bool :=
  [1, 2, 3].any (fun L => [1, 2, 3, 4].any (fun N => (matchStd L N t).isSome))

/-- `calculate_confidence_boost` (confidences as exact rationals). -/
def calculate_confidence_boost (text : List Char) (originalConfidence : ℚ) : ℚ :=
  if enhanced_validation text then
    if perfectStandard text then
      if validProvince (text.take 2) then min 1 (originalConfidence * 1.3)
      else min 1 (originalConfidence * 1.15)
    else min 1 (originalConfidence * 1.15)
  else max 0.1 (originalConfidence * 0.9)

/-- `smart_ensemble_decision`: returns `(final_text, final_confidence, source_tag)`. -/
def smart_ensemble_decision (easyocrText : Option (List Char)) (easyocrConf : ℚ)
    (paddleocrText : Option (List Char)) (paddleocrConf : ℚ) :
    List Char × ℚ × String :=
  let easyCleaned := enhanced_clean_text_opt easyocrText
  let paddleCleaned := enhanced_clean_text_opt paddleocrText
  let easyValid := enhanced_validation easyCleaned
  let paddleValid := enhanced_validation paddleCleaned
  if easyCleaned = paddleCleaned ∧ easyCleaned ≠ [] then
    (easyCleaned, calculate_confidence_boost easyCleaned (max easyocrConf paddleocrConf),
      "both_agree")
  else if easyValid && !paddleValid then
    (easyCleaned, calculate_confidence_boost easyCleaned easyocrConf, "easyocr_valid")
  else if paddleValid && !easyValid then
    (paddleCleaned, calculate_confidence_boost paddleCleaned paddleocrConf, "paddleocr_valid")
  else if easyValid && paddleValid then
    if easyocrConf ≥ paddleocrConf then
      (easyCleaned, calculate_confidence_boost easyCleaned easyocrConf,
        "both_valid_easy_higher")
    else
      (paddleCleaned, calculate_confidence_boost paddleCleaned paddleocrConf,
        "both_valid_paddle_higher")
  else
    if easyocrConf ≥ paddleocrConf then
      (easyCleaned, easyocrConf, "neither_valid_easy_higher")
    else
      (paddleCleaned, paddleocrConf, "neither_valid_paddle_higher")

/-! ### Derived predicates and data used by the statements -/

/-- A character allowed in normalized text: the class `[A-Z0-9]`. -/
def isAlnumC (c : Char) : Bool := isUpperC c || isDigitC c

/-- All characters of the string lie in `[A-Z0-9]`. -/
def AlnumStr (t : List Char) : Prop := ∀ c ∈ t, isAlnumC c = true

/-- The per-layout likelihood from the `standard_patterns` table. -/
def patternConfidence (L N : Nat) : Score :=
  (((standardPatterns.find? (fun pat => pat.1 == L && pat.2.1 == N)).map
    (fun pat => pat.2.2)).getD 0)

/-- The seven `source_tag` values of the ensemble decision. -/
def sourceTags : List String :=
  ["both_agree", "easyocr_valid", "paddleocr_valid", "both_valid_easy_higher",
   "both_valid_paddle_higher", "neither_valid_easy_higher", "neither_valid_paddle_higher"]


/-! ### Character-level lemmas -/

theorem charLe_toNat {a b : Char} : a ≤ b ↔ a.toNat ≤ b.toNat := by
  rw [Char.le_def, UInt32.le_def, BitVec.le_def]; rfl

theorem isUpperC_iff {c : Char} : isUpperC c = true ↔ 65 ≤ c.toNat ∧ c.toNat ≤ 90 := by
  rw [isUpperC, Bool.and_eq_true, decide_eq_true_eq, decide_eq_true_eq,
    charLe_toNat, charLe_toNat]
  exact Iff.rfl

theorem isDigitC_iff {c : Char} : isDigitC c = true ↔ 48 ≤ c.toNat ∧ c.toNat ≤ 57 := by
  rw [isDigitC, Bool.and_eq_true, decide_eq_true_eq, decide_eq_true_eq,
    charLe_toNat, charLe_toNat]
  exact Iff.rfl

theorem toUpper_of_alnum {c : Char} (h : isAlnumC c = true) : c.toUpper = c := by
  rw [isAlnumC, Bool.or_eq_true, isUpperC_iff, isDigitC_iff] at h
  rw [Char.toUpper, if_neg]
  omega

theorem isUpperC_of_digit {c : Char} (h : isDigitC c = true) : isUpperC c = false := by
  rw [isDigitC_iff] at h
  rw [← Bool.not_eq_true, isUpperC_iff]
  omega

/-! ### The normalization pipeline only produces `[A-Z0-9]` characters -/

theorem AlnumStr.mono {s t : List Char} (h : AlnumStr t) (hs : s ⊆ t) : AlnumStr s :=
  fun c hc => h c (hs hc)

theorem AlnumStr.append {s t : List Char} (hs : AlnumStr s) (ht : AlnumStr t) :
    AlnumStr (s ++ t) := by
  intro c hc
  rcases List.mem_append.1 hc with h | h
  · exact hs c h
  · exact ht c h

theorem alnum_strip01 (t : List Char) : AlnumStr (strip01 t) :=
  fun _ hc => (List.mem_filter.1 hc).2

theorem alnum_mapSub {a b : Char} (hb : isAlnumC b = true) {t : List Char}
    (ht : AlnumStr t) : AlnumStr (t.map (fun c => if c = a then b else c)) := by
  intro c hc
  obtain ⟨x, hx, rfl⟩ := List.mem_map.1 hc
  by_cases hxa : x = a
  · simpa [hxa] using hb
  · simpa [hxa] using ht x hx

theorem alnum_applySubs :
    ∀ (subs : List (Char × Char)), (∀ p ∈ subs, isAlnumC p.2 = true) →
      ∀ t, AlnumStr t → AlnumStr (applySubs subs t)
  | [], _, t, ht => by simpa [applySubs] using ht
  | p :: rest, h, t, ht => by
      have step : AlnumStr (t.map (fun c => if c = p.1 then p.2 else c)) :=
        alnum_mapSub (h p (List.mem_cons_self p rest)) ht
      have tail := alnum_applySubs rest (fun q hq => h q (List.mem_cons_of_mem p hq)) _ step
      simpa [applySubs, List.foldl_cons] using tail


theorem alnum_variants {t : List Char} (ht : AlnumStr t) :
    ∀ v ∈ generate_correction_variants t, AlnumStr v.text := by
  intro v hv
  have hpc : AlnumStr (applySubs [('O', '0'), ('I', '1'), ('D', '0')] (t.take 2)) :=
    alnum_applySubs _ (by decide) _ (ht.mono (List.take_subset _ _))
  simp only [generate_correction_variants] at hv
  split at hv
  · cases hv
  · rcases List.mem_append.1 hv with h | h
    · split at h
      · rcases List.mem_singleton.1 h with rfl
        exact hpc.append (ht.mono (List.drop_subset _ _))
      · cases h
    · obtain ⟨sp, _, heq⟩ := List.mem_filterMap.1 h
      split at heq
      · split at heq
        · obtain rfl := Option.some.inj heq
          refine AlnumStr.append (AlnumStr.append hpc ?_) ?_
          · exact alnum_applySubs _ (by decide) _
              (ht.mono (List.Subset.trans (List.take_subset _ _) (List.drop_subset _ _)))
          · exact alnum_applySubs _ (by decide) _
              (ht.mono (List.Subset.trans (List.drop_subset _ _) (List.drop_subset _ _)))
        · cases heq
      · cases heq

theorem matchStd_eq_some {L N : Nat} {t : List Char}
    {g : List Char × List Char × List Char} (h : matchStd L N t = some g) :
    g.1 = t.take 2 ∧ g.2.1 = (t.drop 2).take L ∧ g.2.2 = (t.drop 2).drop L := by
  rw [matchStd] at h
  split at h
  · obtain rfl := Option.some.inj h
    exact ⟨rfl, rfl, rfl⟩
  · cases h

theorem dipMatch_alnum {t : List Char} {g : List Char × List Char × List Char}
    (ht : AlnumStr t) (h : dipMatch t = some g) :
    AlnumStr g.1 ∧ AlnumStr g.2.1 ∧ AlnumStr g.2.2 := by
  obtain ⟨c, _, hfc⟩ := List.exists_of_findSome?_eq_some h
  split at hfc
  · obtain rfl := Option.some.inj hfc
    refine ⟨ht.mono (List.take_subset _ _), ?_, ?_⟩
    · exact ht.mono (List.Subset.trans (List.take_subset _ _) (List.drop_subset _ _))
    · exact ht.mono (List.Subset.trans (List.drop_subset _ _) (List.drop_subset _ _))
  · cases hfc

theorem oldMatch_alnum {t : List Char} {g : List Char × List Char × List Char}
    (ht : AlnumStr t) (h : oldMatch t = some g) :
    AlnumStr g.1 ∧ AlnumStr g.2.1 ∧ AlnumStr g.2.2 := by
  obtain ⟨c, _, hfc⟩ := List.exists_of_findSome?_eq_some h
  split at hfc
  · obtain rfl := Option.some.inj hfc
    refine ⟨ht.mono (List.take_subset _ _), ?_, ?_⟩
    · exact ht.mono (List.Subset.trans (List.take_subset _ _) (List.drop_subset _ _))
    · exact ht.mono (List.Subset.trans (List.drop_subset _ _) (List.drop_subset _ _))
  · cases hfc

theorem alnum_hyp {t : List Char} (ht : AlnumStr t) {h : Hyp}
    (hmem : h ∈ directHyps t ++ variantHyps t ++ analyze_special_formats t) :
    (∀ g ∈ h.groups, AlnumStr g) ∧ (∀ ct, h.corrected_text = some ct → AlnumStr ct) := by
  rcases List.mem_append.1 hmem with hdv | hs
  · rcases List.mem_append.1 hdv with hd | hv
    · obtain ⟨pat, _, heq⟩ := List.mem_filterMap.1 hd
      dsimp only at heq
      split at heq
      · rename_i province letters numbers hms
        obtain rfl := Option.some.inj heq
        obtain ⟨h1, h2, h3⟩ := matchStd_eq_some hms
        constructor
        · intro g hg
          rcases List.mem_cons.1 hg with rfl | hg
          · have e : g = List.take 2 t := h1
            exact e ▸ ht.mono (List.take_subset _ _)
          rcases List.mem_cons.1 hg with rfl | hg
          · have e : g = List.take pat.1 (List.drop 2 t) := h2
            exact e ▸ (ht.mono (List.drop_subset _ _)).mono (List.take_subset _ _)
          rcases List.mem_cons.1 hg with rfl | hg
          · have e : g = List.drop pat.1 (List.drop 2 t) := h3
            exact e ▸ (ht.mono (List.drop_subset _ _)).mono (List.drop_subset _ _)
          · cases hg
        · intro ct hct
          cases hct
      · cases heq
    · obtain ⟨v, hv, hmem2⟩ := List.mem_flatMap.1 hv
      obtain ⟨pat, _, heq⟩ := List.mem_filterMap.1 hmem2
      have hvt : AlnumStr v.text := alnum_variants ht v hv
      dsimp only at heq
      split at heq
      · rename_i province letters numbers hms
        obtain rfl := Option.some.inj heq
        obtain ⟨h1, h2, h3⟩ := matchStd_eq_some hms
        constructor
        · intro g hg
          rcases List.mem_cons.1 hg with rfl | hg
          · have e : g = List.take 2 v.text := h1
            exact e ▸ hvt.mono (List.take_subset _ _)
          rcases List.mem_cons.1 hg with rfl | hg
          · have e : g = List.take pat.1 (List.drop 2 v.text) := h2
            exact e ▸ (hvt.mono (List.drop_subset _ _)).mono (List.take_subset _ _)
          rcases List.mem_cons.1 hg with rfl | hg
          · have e : g = List.drop pat.1 (List.drop 2 v.text) := h3
            exact e ▸ (hvt.mono (List.drop_subset _ _)).mono (List.drop_subset _ _)
          · cases hg
        · intro ct hct
          obtain rfl := Option.some.inj hct
          exact hvt
      · cases heq
  · simp only [analyze_special_formats] at hs
    rcases List.mem_append.1 hs with h1 | h1
    · split at h1
      · rename_i l d tr hdm
        rcases List.mem_singleton.1 h1 with rfl
        obtain ⟨a1, a2, a3⟩ := dipMatch_alnum ht hdm
        refine ⟨?_, fun ct hct => by cases hct⟩
        intro g hg
        rcases List.mem_cons.1 hg with rfl | hg
        · exact a1
        rcases List.mem_cons.1 hg with rfl | hg
        · exact a2
        rcases List.mem_cons.1 hg with rfl | hg
        · exact a3
        · cases hg
      · cases h1
    · split at h1
      · rename_i l1 d l2 hom
        rcases List.mem_singleton.1 h1 with rfl
        obtain ⟨a1, a2, a3⟩ := oldMatch_alnum ht hom
        refine ⟨?_, fun ct hct => by cases hct⟩
        intro g hg
        rcases List.mem_cons.1 hg with rfl | hg
        · exact a1
        rcases List.mem_cons.1 hg with rfl | hg
        · exact a2
        rcases List.mem_cons.1 hg with rfl | hg
        · exact a3
        · cases hg
      · cases h1


theorem alnum_apply {t : List Char} (ht : AlnumStr t) {h : Hyp}
    (hg : ∀ g ∈ h.groups, AlnumStr g)
    (hct : ∀ ct, h.corrected_text = some ct → AlnumStr ct) :
    AlnumStr (apply_corrections_based_on_analysis t h) := by
  rw [apply_corrections_based_on_analysis]
  split_ifs
  · rw [apply_dynamic_standard_corrections]
    split
    · exact hct _ (by assumption)
    · split
      · rename_i province letters numbers rest hgroups
        refine AlnumStr.append (AlnumStr.append ?_ ?_) ?_
        · exact alnum_applySubs _ (by decide) _
            (hg province (by rw [hgroups]; exact List.mem_cons_self _ _))
        · exact hg letters (by rw [hgroups]; simp)
        · exact hg numbers (by rw [hgroups]; simp)
      · exact ht
  · rw [apply_diplomatic_corrections]
    split
    · rename_i letters numbers rest hgroups
      have hl : AlnumStr letters := hg letters (by rw [hgroups]; simp)
      have hn : AlnumStr numbers := hg numbers (by rw [hgroups]; simp)
      have base : AlnumStr (applySubs [('0', 'O'), ('1', 'I')] letters ++
          applySubs [('O', '0'), ('I', '1'), ('S', '5')] numbers) :=
        AlnumStr.append (alnum_applySubs _ (by decide) _ hl)
          (alnum_applySubs _ (by decide) _ hn)
      cases rest with
      | nil => exact base
      | cons trailing rest2 =>
          dsimp only
          split_ifs
          · refine base.append (hg trailing ?_)
            rw [hgroups]
            simp
          · exact base
    · exact ht
  · rw [apply_old_format_corrections]
    split
    · rename_i letters1 numbers letters2 rest hgroups
      refine AlnumStr.append (AlnumStr.append ?_ ?_) ?_
      · exact alnum_applySubs _ (by decide) _ (hg letters1 (by rw [hgroups]; simp))
      · exact alnum_applySubs _ (by decide) _ (hg numbers (by rw [hgroups]; simp))
      · exact alnum_applySubs _ (by decide) _ (hg letters2 (by rw [hgroups]; simp))
    · exact ht
  · exact ht

theorem foldl_pick_mem (l : List Hyp) :
    ∀ h : Hyp,
      l.foldl (fun best x => if best.confidence < x.confidence then x else best) h ∈ h :: l := by
  induction l with
  | nil => intro h; simp
  | cons x xs ih =>
      intro h
      rw [List.foldl_cons]
      rcases List.mem_cons.1 (ih (if h.confidence < x.confidence then x else h)) with he | he
      · rw [he]
        split
        · exact List.mem_cons_of_mem _ (List.mem_cons_self _ _)
        · exact List.mem_cons_self _ _
      · exact List.mem_cons_of_mem _ (List.mem_cons_of_mem _ he)

theorem maxByFirst_mem {l : List Hyp} {h : Hyp} (e : maxByFirst l = some h) : h ∈ l := by
  cases l with
  | nil => cases e
  | cons x xs =>
      rw [maxByFirst] at e
      obtain rfl := Option.some.inj e
      exact foldl_pick_mem xs x

theorem alnum_corr {t : List Char} (ht : AlnumStr t) :
    AlnumStr (context_aware_correction t) := by
  simp only [context_aware_correction]
  split
  · exact ht
  · have hs := alnum_strip01 t
    split
    · rw [analyze_plate_pattern]
      rcases hm : maxByFirst (directHyps (strip01 t) ++ variantHyps (strip01 t) ++
          analyze_special_formats (strip01 t)) with _ | best
      · simp only [hm]
        rw [show apply_corrections_based_on_analysis (strip01 t) unknownHyp = strip01 t
          from rfl]
        exact hs
      · simp only [hm]
        obtain ⟨hg, hct⟩ := alnum_hyp hs (maxByFirst_mem hm)
        exact alnum_apply hs hg hct
    · exact alnum_applySubs _ (by decide) _ hs


theorem clean_output (t : List Char) :
    enhanced_clean_text t = [] ∨
      (2 ≤ (enhanced_clean_text t).length ∧ (enhanced_clean_text t).length ≤ 10 ∧
        AlnumStr (enhanced_clean_text t)) := by
  simp only [enhanced_clean_text]
  split_ifs with h1 h2
  · exact Or.inl rfl
  · exact Or.inl rfl
  · right
    push_neg at h2
    exact ⟨h2.1, h2.2, alnum_corr (alnum_strip01 t)⟩


theorem strip01_alnum_id {t : List Char} (ht : AlnumStr t) : strip01 t = t := by
  induction t with
  | nil => rfl
  | cons c cs ih =>
      have hc : isAlnumC c = true := ht c (List.mem_cons_self _ _)
      have hcs : AlnumStr cs := fun x hx => ht x (List.mem_cons_of_mem _ hx)
      rw [strip01, List.map_cons, toUpper_of_alnum hc, List.filter_cons, if_pos]
      · rw [show ((cs.map Char.toUpper).filter fun c => isUpperC c || isDigitC c) =
          strip01 cs from rfl, ih hcs]
      · exact hc

theorem corr_short {t : List Char} (h : t.length < 5) : context_aware_correction t = t := by
  rw [context_aware_correction, if_pos h]

theorem clean_empty : enhanced_clean_text [] = [] := rfl


/-- C6: for every input string (including the empty string and `None`), the
normalized output of `enhanced_clean_text` is either the empty string or a
string of length between 2 and 10 inclusive consisting only of characters
in `[A-Z0-9]`. -/
theorem C6_normalized_text_shape (t : Option (List Char)) :
    enhanced_clean_text_opt t = [] ∨
      (2 ≤ (enhanced_clean_text_opt t).length ∧ (enhanced_clean_text_opt t).length ≤ 10 ∧
        ∀ c ∈ enhanced_clean_text_opt t, isAlnumC c = true) := by
  cases t with
  | none => exact Or.inl rfl
  | some s => exact clean_output s

/-- C4 counterexample: normalization is not idempotent.  `"34001"` cleans to
`"34O01"` (a boundary-shift variant rewrites the digit segment `0` to the
letter `O`), but cleaning `"34O01"` again yields `"34OO1"`, so
`enhanced_clean_text (enhanced_clean_text "34001") ≠ enhanced_clean_text "34001"`. -/
theorem C4_counterexample :
    enhanced_clean_text ("34001".toList) = "34O01".toList ∧
      enhanced_clean_text ("34O01".toList) = "34OO1".toList ∧
      enhanced_clean_text (enhanced_clean_text ("34001".toList)) ≠
        enhanced_clean_text ("34001".toList) := by
  refine ⟨by decide, by decide, by decide⟩

/-- C4 amended: normalization is idempotent on every input whose cleaned
output is shorter than 5 characters (the structural corrector passes such
strings through unchanged); on longer outputs idempotence fails, as the
counterexample shows. -/
theorem C4_amended_idempotent_on_short (t : List Char)
    (hlen : (enhanced_clean_text t).length < 5) :
    enhanced_clean_text (enhanced_clean_text t) = enhanced_clean_text t := by
  rcases clean_output t with he | ⟨h2, _, halnum⟩
  · rw [he]
    exact clean_empty
  · have hne : enhanced_clean_text t ≠ [] := by
      intro h0
      rw [h0] at h2
      simp at h2
    rw [enhanced_clean_text, if_neg hne]
    dsimp only
    rw [strip01_alnum_id halnum, corr_short hlen, if_neg]
    omega

/-- C4 witness: the amended idempotence theorem applied to the concrete
input `"34"`, whose cleaned output `"34"` has length 2 < 5. -/
theorem C4_witness :
    (enhanced_clean_text ("34".toList)).length < 5 ∧
      enhanced_clean_text (enhanced_clean_text ("34".toList)) = enhanced_clean_text ("34".toList) :=
  ⟨by decide, C4_amended_idempotent_on_short ("34".toList) (by decide)⟩


/-- C1: whenever the two cleaned texts agree and are non-empty, the decision
is exactly that cleaned text with source tag `"both_agree"` and confidence
`calculate_confidence_boost text (max confA confB)`, regardless of the two
confidence values and of validity. -/
theorem C1_agreement_dominance (ta tb : Option (List Char)) (ca cb : ℚ)
    (heq : enhanced_clean_text_opt ta = enhanced_clean_text_opt tb)
    (hne : enhanced_clean_text_opt ta ≠ []) :
    smart_ensemble_decision ta ca tb cb =
      (enhanced_clean_text_opt ta,
        calculate_confidence_boost (enhanced_clean_text_opt ta) (max ca cb),
        "both_agree") := by
  rw [smart_ensemble_decision]
  rw [if_pos ⟨heq, hne⟩]

/-- C1 witness: the agreement theorem applied at the concrete pair of inputs
`("34AB12", 0)` and `("34AB12", 1)`. -/
theorem C1_agreement_dominance_witness :
    smart_ensemble_decision (some ("34AB12".toList)) 0 (some ("34AB12".toList)) 1 =
      (enhanced_clean_text_opt (some ("34AB12".toList)),
        calculate_confidence_boost (enhanced_clean_text_opt (some ("34AB12".toList))) (max 0 1),
        "both_agree") :=
  C1_agreement_dominance _ _ 0 1 rfl (by decide)

/-- C9: the final text returned by `smart_ensemble_decision` is always one of
the two cleaned texts; the ensemble never produces a third string. -/
theorem C9_final_text_is_one_of_cleaned (ta tb : Option (List Char)) (ca cb : ℚ) :
    (smart_ensemble_decision ta ca tb cb).1 = enhanced_clean_text_opt ta ∨
      (smart_ensemble_decision ta ca tb cb).1 = enhanced_clean_text_opt tb := by
  rw [smart_ensemble_decision]
  split_ifs <;> simp

/-- C8: every core operation is total.  Missing (`none`) or empty text
normalizes to the empty-string sentinel, and for all inputs the ensemble
decision completes with one of the seven source tags (in this shallow
embedding all operations are total Lean functions by construction, so no
exception can be raised). -/
theorem C8_totality :
    (∀ t : Option (List Char), t = none ∨ t = some [] → enhanced_clean_text_opt t = []) ∧
      ∀ (ta tb : Option (List Char)) (ca cb : ℚ),
        (smart_ensemble_decision ta ca tb cb).2.2 ∈ sourceTags := by
  constructor
  · rintro t (rfl | rfl)
    · rfl
    · exact clean_empty
  · intro ta tb ca cb
    rw [smart_ensemble_decision]
    split_ifs <;> simp [sourceTags]

/-- C8 witness: the totality theorem applied at `none` inputs. -/
theorem C8_totality_witness :
    enhanced_clean_text_opt none = [] ∧
      (smart_ensemble_decision none 0 none 0).2.2 ∈ sourceTags :=
  ⟨C8_totality.1 none (Or.inl rfl), C8_totality.2 none none 0 0⟩

/-- C10: when neither cleaned text is valid, the engine with the higher (or,
on a tie, engine A) raw confidence wins even if its cleaned text is the
empty sentinel and the other engine's cleaned text is non-empty: engine A
input `""` with confA ≥ confB yields `("", confA, "neither_valid_easy_higher")`. -/
theorem C10_neither_valid_higher_confidence_wins (ca cb : ℚ) (tb : List Char)
    (hconf : cb ≤ ca)
    (_hne : enhanced_clean_text tb ≠ [])
    (hinv : enhanced_validation (enhanced_clean_text tb) = false) :
    smart_ensemble_decision (some []) ca (some tb) cb =
      ([], ca, "neither_valid_easy_higher") := by
  have h1 : enhanced_validation ([] : List Char) = false := rfl
  rw [smart_ensemble_decision]
  simp only [enhanced_clean_text_opt, clean_empty, h1, hinv, Bool.false_and,
    Bool.and_false, Bool.not_false]
  rw [if_neg (fun hc => hc.2 rfl), if_neg (by simp), if_neg (by simp),
    if_neg (by simp), if_pos hconf]


/-- C10 witness: the theorem applied at engine A `("", 1/2)` and engine B
`("AB", 1/2)`, where `"AB"` cleans to itself (non-empty) and is invalid. -/
theorem C10_neither_valid_witness :
    smart_ensemble_decision (some []) (1/2) (some ("AB".toList)) (1/2) =
      ([], 1/2, "neither_valid_easy_higher") :=
  C10_neither_valid_higher_confidence_wins (1/2) (1/2) ("AB".toList) (le_refl _)
    (by decide) (by decide)

theorem matchStd_head_digit {L N : Nat} {t : List Char}
    {g : List Char × List Char × List Char} (h : matchStd L N t = some g) :
    ∃ c cs, t = c :: cs ∧ isDigitC c = true := by
  rw [matchStd] at h
  split at h
  · rename_i hc
    obtain ⟨hlen, hd2, -, -⟩ := hc
    cases t with
    | nil =>
        simp only [List.length_nil] at hlen
        omega
    | cons c cs =>
        refine ⟨c, cs, rfl, ?_⟩
        rw [List.take_succ_cons, List.all_cons] at hd2
        simp only [Bool.and_eq_true] at hd2
        exact hd2.1
  · cases h

theorem head_upper {t : List Char} {l rest : Nat} (hl : 1 ≤ l)
    (hlen : t.length = l + rest) (hup : (t.take l).all isUpperC = true) :
    ∃ c cs, t = c :: cs ∧ isUpperC c = true := by
  cases t with
  | nil => simp at hlen; omega
  | cons c cs =>
      refine ⟨c, cs, rfl, ?_⟩
      cases l with
      | zero => omega
      | succ m =>
          rw [List.take_succ_cons, List.all_cons, Bool.and_eq_true] at hup
          exact hup.1

theorem dipMatch_head_upper {t : List Char} {g : List Char × List Char × List Char}
    (h : dipMatch t = some g) : ∃ c cs, t = c :: cs ∧ isUpperC c = true := by
  obtain ⟨c, hc, hfc⟩ := List.exists_of_findSome?_eq_some h
  have hge : 1 ≤ c.1 := by fin_cases hc <;> decide
  split at hfc
  · rename_i hcond
    obtain ⟨hlen, hup, -, -⟩ := hcond
    exact @head_upper t c.1 (c.2.1 + c.2.2) hge (by omega) hup
  · cases hfc

theorem oldMatch_head_upper {t : List Char} {g : List Char × List Char × List Char}
    (h : oldMatch t = some g) : ∃ c cs, t = c :: cs ∧ isUpperC c = true := by
  obtain ⟨c, hc, hfc⟩ := List.exists_of_findSome?_eq_some h
  have hge : 1 ≤ c.1 := by fin_cases hc <;> decide
  split at hfc
  · rename_i hcond
    obtain ⟨hlen, hup, -, -⟩ := hcond
    exact @head_upper t c.1 (c.2.1 + c.2.2) hge (by omega) hup
  · cases hfc

/-- C7: if a string is accepted by `enhanced_validation` and it matches one
of the 12 standard layouts, the acceptance went through the standard-grammar
path, and its first two characters form a province code in the valid set
`{"01", …, "81"}` (the diplomatic and legacy grammars require a leading
letter, while a standard-layout string starts with a digit). -/
theorem C7_standard_acceptance_has_valid_province (t : List Char)
    (hv : enhanced_validation t = true) (hstd : matchesStandardLayout t = true) :
    validProvince (t.take 2) = true := by
  obtain ⟨pat, hpat, hp⟩ := List.any_eq_true.1 hstd
  obtain ⟨g, hg⟩ := Option.isSome_iff_exists.1 hp
  obtain ⟨c, cs, rfl, hcd⟩ := matchStd_head_digit hg
  rw [enhanced_validation] at hv
  split_ifs at hv with h1 h2 h3 h4
  · obtain ⟨pat2, -, hcond⟩ := List.any_eq_true.1 h2
    simp only [Bool.and_eq_true] at hcond
    exact hcond.2
  · exfalso
    obtain ⟨g2, hg2⟩ := Option.isSome_iff_exists.1 h3
    obtain ⟨c2, cs2, heq, hup⟩ := dipMatch_head_upper hg2
    obtain ⟨rfl, -⟩ := List.cons.inj heq
    rw [isUpperC_of_digit hcd] at hup
    exact Bool.noConfusion hup
  · exfalso
    obtain ⟨g2, hg2⟩ := Option.isSome_iff_exists.1 h4
    obtain ⟨c2, cs2, heq, hup⟩ := oldMatch_head_upper hg2
    obtain ⟨rfl, -⟩ := List.cons.inj heq
    rw [isUpperC_of_digit hcd] at hup
    exact Bool.noConfusion hup

/-- C7 witness: the theorem applied to `"34A123"`, which is accepted and
matches a standard layout; its prefix `"34"` is a valid province code. -/
theorem C7_standard_acceptance_witness :
    validProvince (("34A123".toList).take 2) = true :=
  C7_standard_acceptance_has_valid_province ("34A123".toList) (by decide) (by decide)


/-- C3 amended: for every string accepted by the validator and every
confidence in `[0,1]`, the boost is at least the original confidence; for
every rejected string the boosted value is at most the original confidence
provided the original confidence is at least the floor `0.1`.  (For
rejected strings and confidence below `0.1`, the source's `max(0.1, c*0.9)`
floor raises the confidence, so the claim's inequality fails there — see
the counterexample.) -/
theorem C3_amended_monotonic_boost (t : List Char) (c : ℚ) (h0 : 0 ≤ c) (h1 : c ≤ 1) :
    (enhanced_validation t = true → c ≤ calculate_confidence_boost t c) ∧
      (enhanced_validation t = false → 1/10 ≤ c → calculate_confidence_boost t c ≤ c) := by
  constructor
  · intro hv
    rw [calculate_confidence_boost, if_pos hv]
    split_ifs <;> exact le_min h1 (by nlinarith)
  · intro hv hc
    rw [calculate_confidence_boost, if_neg (by rw [hv]; exact Bool.noConfusion)]
    refine max_le (le_trans (by norm_num) hc) (by nlinarith)

/-- C3 counterexample: the empty string is rejected by the validator, `0`
lies in `[0,1]`, yet `calculate_confidence_boost "" 0 = 0.1 > 0`, violating
the claimed `boost ≤ c` for invalid strings. -/
theorem C3_monotonic_boost_counterexample :
    enhanced_validation [] = false ∧ (0 : ℚ) ≤ 0 ∧ (0 : ℚ) ≤ 1 ∧
      ¬(calculate_confidence_boost [] 0 ≤ 0) := by
  refine ⟨rfl, le_refl _, by norm_num, ?_⟩
  rw [calculate_confidence_boost, if_neg (by decide)]
  norm_num

/-- C3 witness: the amended theorem applied at the rejected string `""` with
confidence `1/2 ≥ 0.1`, and at the accepted string `"34AB123"` with
confidence `1/2`. -/
theorem C3_amended_monotonic_boost_witness :
    calculate_confidence_boost [] (1/2) ≤ 1/2 ∧
      (1/2 : ℚ) ≤ calculate_confidence_boost ("34AB123".toList) (1/2) :=
  ⟨(C3_amended_monotonic_boost [] (1/2) (by norm_num) (by norm_num)).2 (by decide) (by norm_num),
   (C3_amended_monotonic_boost ("34AB123".toList) (1/2) (by norm_num) (by norm_num)).1 (by decide)⟩


theorem patConf_of_mem : ∀ pat ∈ standardPatterns, patternConfidence pat.1 pat.2.1 = pat.2.2 := by
  decide

/-- C5 amended: every direct match of the text against one of the 12
standard layouts yields a hypothesis whose score equals
(0.5 + 0.3·[province valid] + layout bonus of 0.2 for letters=2,digits∈{2,3},
0.15 for letters=3,digits=1, 0.15 for letters=1,digits=4, else 0)
multiplied by the per-layout likelihood from the pattern table
(`patternConfidence`, between 0.6 and 0.9); the claim omits this final
multiplication.  Scores are in fixed-point units of 10⁻⁶. -/
theorem C5_amended_direct_match_scoring (text : List Char) (h : Hyp)
    (hmem : h ∈ directHyps text) :
    h.confidence =
      smul (500000 + (if validProvince (text.take 2) then 300000 else 0) +
          (if h.letters = 2 ∧ 2 ≤ h.numbers ∧ h.numbers ≤ 3 then 200000
           else if h.letters = 3 ∧ h.numbers = 1 then 150000
           else if h.letters = 1 ∧ h.numbers = 4 then 150000
           else 0))
        (patternConfidence h.letters h.numbers) := by
  obtain ⟨pat, hpat, heq⟩ := List.mem_filterMap.1 hmem
  dsimp only at heq
  split at heq
  · rename_i province letters numbers hms
    obtain rfl := Option.some.inj heq
    obtain ⟨h1, -, -⟩ := matchStd_eq_some hms
    have e : province = List.take 2 text := h1
    subst e
    dsimp only
    rw [patConf_of_mem pat hpat]
    rfl
  · cases heq

/-- C5 counterexample: for text `"34AB123"` (letters=2, digits=3, valid
province `"34"`), the produced hypothesis has score `0.9` (units 10⁻⁶:
`900000`), not `0.5 + 0.3 + 0.2 = 1.0` as the claim states — the base score
is multiplied by the layout likelihood `0.9`. -/
theorem C5_direct_match_scoring_counterexample :
    directHyps ("34AB123".toList) =
      [{ type := "standard", groups := [['3', '4'], ['A', 'B'], ['1', '2', '3']],
         letters := 2, numbers := 3, confidence := 900000, corrected_text := none }] ∧
      (900000 : Score) ≠ 500000 + 300000 + 200000 :=
  ⟨by decide, by decide⟩

/-- C5 witness: the amended scoring theorem applied to the concrete
hypothesis produced for `"34AB123"`. -/
theorem C5_amended_direct_match_scoring_witness :
    ({ type := "standard", groups := [['3', '4'], ['A', 'B'], ['1', '2', '3']],
       letters := 2, numbers := 3, confidence := 900000, corrected_text := none } : Hyp).confidence =
      smul (500000 + (if validProvince (("34AB123".toList).take 2) then 300000 else 0) +
          (if (2 : Nat) = 2 ∧ 2 ≤ (3 : Nat) ∧ (3 : Nat) ≤ 3 then 200000
           else if (2 : Nat) = 3 ∧ (3 : Nat) = 1 then 150000
           else if (2 : Nat) = 1 ∧ (3 : Nat) = 4 then 150000
           else 0))
        (patternConfidence 2 3) :=
  C5_amended_direct_match_scoring ("34AB123".toList) _ (by decide)


theorem boost_XQ99ZZ : calculate_confidence_boost ("XQ99ZZ".toList) 0.9 = 1 := by
  rw [calculate_confidence_boost, if_pos (by decide), if_neg (by decide)]
  rw [min_eq_left (by norm_num)]

theorem ensemble_34AB123_XQ99ZZ :
    smart_ensemble_decision (some ("34AB123".toList)) 0.8 (some ("XQ99ZZ".toList)) 0.9 =
      ("XQ99ZZ".toList, 1, "both_valid_paddle_higher") := by
  have hca : enhanced_clean_text_opt (some ("34AB123".toList)) = "34AB123".toList := by decide
  have hcb : enhanced_clean_text_opt (some ("XQ99ZZ".toList)) = "XQ99ZZ".toList := by decide
  have hva : enhanced_validation ("34AB123".toList) = true := by decide
  have hvb : enhanced_validation ("XQ99ZZ".toList) = true := by decide
  rw [smart_ensemble_decision, hca, hcb, hva, hvb]
  rw [if_neg (by decide), if_neg (by decide), if_neg (by decide), if_pos (by decide),
    if_neg (by norm_num), boost_XQ99ZZ]

/-- C2 counterexample: contrary to the claim, engine B's cleaned text
`"XQ99ZZ"` is ACCEPTED by `enhanced_validation` (it matches the legacy
grammar `[A-Z]{1,2}[0-9]{2,4}[A-Z]{1,2}`), so for inputs
`("34AB123", 0.8)` and `("XQ99ZZ", 0.9)` the decision is not
`("34AB123", 1, "easyocr_valid")`. -/
theorem C2_scenario3_counterexample :
    smart_ensemble_decision (some ("34AB123".toList)) 0.8 (some ("XQ99ZZ".toList)) 0.9 ≠
      ("34AB123".toList, 1, "easyocr_valid") ∧
      enhanced_validation (enhanced_clean_text ("XQ99ZZ".toList)) = true := by
  refine ⟨?_, by decide⟩
  rw [ensemble_34AB123_XQ99ZZ]
  intro h
  exact absurd (congrArg (fun r => r.2.2) h) (by decide)

/-- C2 amended: for engineA `("34AB123", 0.8)` and engineB `("XQ99ZZ", 0.9)`,
both cleaned texts are valid (engine B's via the legacy grammar), so the
higher-confidence engine B wins: the decision is
`("XQ99ZZ", min(1, 0.9·1.15) = 1, "both_valid_paddle_higher")`. -/
theorem C2_scenario3_amended :
    enhanced_validation (enhanced_clean_text ("34AB123".toList)) = true ∧
      enhanced_validation (enhanced_clean_text ("XQ99ZZ".toList)) = true ∧
      smart_ensemble_decision (some ("34AB123".toList)) 0.8 (some ("XQ99ZZ".toList)) 0.9 =
        ("XQ99ZZ".toList, 1, "both_valid_paddle_higher") :=
  ⟨by decide, by decide, ensemble_34AB123_XQ99ZZ⟩

end PlakaOCR
